import Mathlib

/-!
Verification of the GlyphGuard homoglyph-detection engine.

Shallow embedding of the detection core of the GlyphGuard repository:
the punycode codec (src/scanner.js, punycodeToUnicode and its inner
decode/adapt helpers), the hostname decoder (src/scanner.js,
getHostnameUnicode), the script classifier (src/scanner.js,
detectScripts), the text verdict engine (src/unnamed/part_001,
containsSuspiciousKeywords / findSuspiciousWords / checkTextForHomoglyphs),
the domain verdict engine (src/unnamed/part_001, scanLinks), and the
alert-dedup aggregator (src/unnamed/part_001, alertedItems).

Modelling conventions:
- JS strings are modelled as Lean String / List Char.  JS works on UTF-16
  code units; for code points in the Basic Multilingual Plane (everything
  the claims touch) one unit is one char, and charCodeAt is Char.toNat.
- JS numbers are modelled as exact Nat/Int.  All arithmetic performed by
  the decoder on inputs of realistic size stays far below 2^53, where JS
  floats are exact.  The one place where 32-bit semantics matter,
  delta >> 1 in adapt, is modelled exactly via toInt32.
- String.fromCharCode applies ToUint16 to each argument; this is the
  explicit mod 2^16 in fromCharCodeUnits.  Char.ofNat sends the (never
  exercised by any claim) lone-surrogate units to U+0000.
- Char codes below 48 that are not handled by the decoder's digit test
  would produce negative JS digits for codes below 22 (control
  characters); Nat truncated subtraction maps these to 0.  Both break the
  digit loop at that point; no claim involves control characters.
-/

namespace GlyphGuard

/-! ## Punycode codec (src/scanner.js lines 75-126) -/

/-- ToInt32 conversion applied by JavaScript to the operands of `>>`. -/
def toInt32 (x : Int) : Int :=
  (x + 2147483648) % 4294967296 - 2147483648

/-- The while-loop of adapt (src/scanner.js lines 112-115):
while delta > ((base-tmin)*tmax)/2 = 455, divide delta by base-tmin = 35
and add base = 36 to k.  Fuel-indexed for structural recursion; callers
pass the initial delta as fuel, far more than the logarithmic number of
iterations actually used. -/
def adaptLoop : Nat → Nat → Nat → Nat × Nat
  | 0, d, k => (d, k)
  | fuel + 1, d, k => if 455 < d then adaptLoop fuel (d / 35) (k + 36) else (d, k)

/-- Tail of the decoder's adapt after delta has been damped and spread
(src/scanner.js lines 111-116): run the scaling loop when delta exceeds
455, then return k + floor(36*delta / (delta+38)).  The loop only runs on
a positive delta, hence the Nat loop under the Int interface. -/
def adaptCoreI (d1 : Int) : Int :=
  if 455 < d1 then
    ((adaptLoop d1.toNat d1.toNat 0).2 : Int)
      + Int.fdiv (36 * ((adaptLoop d1.toNat d1.toNat 0).1 : Int))
          (((adaptLoop d1.toNat d1.toNat 0).1 : Int) + 38)
  else
    Int.fdiv (36 * d1) (d1 + 38)

/-- The bias adaptation function of the decoder (src/scanner.js lines
108-117).  `delta >> 1` coerces through ToInt32, hence the Int domain;
Math.floor of a JS division of integers is Int.fdiv. -/
def adapt (delta : Int) (numPoints : Nat) (firstTime : Bool) : Int :=
  adaptCoreI ((if firstTime then Int.fdiv delta 700 else Int.fdiv (toInt32 delta) 2)
    + Int.fdiv (if firstTime then Int.fdiv delta 700 else Int.fdiv (toInt32 delta) 2)
        (numPoints : Int))

/-- Tail of the specification's adapt, in pure Nat floor arithmetic. -/
def adaptCore (d1 : Nat) : Nat :=
  if 455 < d1 then
    (adaptLoop d1 d1 0).2 + 36 * (adaptLoop d1 d1 0).1 / ((adaptLoop d1 d1 0).1 + 38)
  else
    36 * d1 / (d1 + 38)

/-- The adapt function exactly as the specification words it (spec section
4.2): pure integer arithmetic with floor semantics, no 32-bit coercion.
This is the comparison definition for the refinement claim C9. -/
def specAdapt (delta : Nat) (numPoints : Nat) (firstTime : Bool) : Nat :=
  adaptCore ((if firstTime then delta / 700 else delta / 2)
    + (if firstTime then delta / 700 else delta / 2) / numPoints)

/-- Digit extraction (src/scanner.js lines 92-95): the JS comparisons
cp-48 < 10, cp-65 < 26, cp-97 < 26 on ASCII codes are equivalent to
cp < 58, cp < 91, cp < 123 in the cascade; otherwise digit = base = 36. -/
def jsDigit (cp : Nat) : Nat :=
  if cp < 58 then cp - 22
  else if cp < 91 then cp - 65
  else if cp < 123 then cp - 97
  else 36

/-- Threshold t (src/scanner.js line 97):
t = k <= bias ? tmin : (k >= bias + tmax ? tmax : k - bias). -/
def threshold (k : Nat) (bias : Int) : Nat :=
  if (k : Int) ≤ bias then 1
  else if bias + 26 ≤ (k : Int) then 26
  else ((k : Int) - bias).toNat

/-- The inner digit loop (src/scanner.js lines 87-100).  Returns none when
the input is exhausted mid-delta (the early `return String.fromCharCode(...basic)`
at line 88), otherwise the accumulated i and the remaining input. -/
def innerLoop : List Nat → Nat → Nat → Nat → Int → Option (Nat × List Nat)
  | [], _, _, _, _ => none
  | cp :: rest, i, w, k, bias =>
    let digit := jsDigit cp
    let i' := i + digit * w
    let t := threshold k bias
    if digit < t then some (i', rest)
    else innerLoop rest i' (w * (36 - t)) (k + 36) bias

/-- The outer while loop (src/scanner.js lines 85-107): decode one delta,
adapt the bias, insert code point n at position i (the splice at line 105).
Fuel-indexed; each iteration consumes at least one input element, so the
input length passed by decode is always sufficient fuel. -/
def outerLoop : Nat → List Nat → List Nat → Nat → Nat → Int → List Nat
  | _, [], basic, _, _, _ => basic
  | 0, _ :: _, basic, _, _, _ => basic
  | fuel + 1, cp :: rest0, basic, n, i, bias =>
    match innerLoop (cp :: rest0) i 1 36 bias with
    | none => basic
    | some (i', rest) =>
      let outLen := basic.length + 1
      let bias' := adapt ((i' - i : Nat) : Int) outLen (i == 0)
      let n' := n + i' / outLen
      let i2 := i' % outLen
      outerLoop fuel rest (basic.take i2 ++ n' :: basic.drop i2) n' (i2 + 1) bias'

/-- Split a unit list at its last 0x2D (hyphen-minus), mirroring
input.lastIndexOf('-') followed by the take/slice at lines 81-83 of
src/scanner.js.  none when no hyphen occurs (b = -1). -/
def lastSplit : List Nat → Option (List Nat × List Nat)
  | [] => none
  | a :: rest =>
    match lastSplit rest with
    | some (p, s) => some (a :: p, s)
    | none => if a = 45 then some ([], rest) else none

/-- The decode closure of punycodeToUnicode (src/scanner.js lines 77-119)
on UTF-16 code units, returning the raw basic array before
String.fromCharCode is applied.  Initial state n = 128, i = 0, bias = 72. -/
def decode (units : List Nat) : List Nat :=
  let output := match lastSplit units with | some (p, _) => p | none => []
  let inp := match lastSplit units with | some (_, s) => s | none => units
  outerLoop inp.length inp output 128 0 72

/-- charCodeAt over a whole string (BMP chars: one unit per char). -/
def toUnits (l : List Char) : List Nat :=
  l.map Char.toNat

/-- String.fromCharCode reduces every argument modulo 2^16 (ToUint16). -/
def fromCharCodeUnits (l : List Nat) : List Nat :=
  l.map (fun u => u % 65536)

/-- Rebuild a Lean string from UTF-16 code units.  Char.ofNat maps the
unrepresentable lone surrogates to U+0000. -/
def unitsToString (l : List Nat) : String :=
  String.mk (l.map Char.ofNat)

/-- The guard input.indexOf("xn--") !== 0 at line 76 of src/scanner.js
together with the input.slice(4) at line 121: some rest when the label
starts with the ACE marker, none otherwise. -/
def xnRest : List Char → Option (List Char)
  | a :: b :: c :: d :: rest =>
    if a = 'x' ∧ b = 'n' ∧ c = '-' ∧ d = '-' then some rest else none
  | _ => none

/-- punycodeToUnicode (src/scanner.js lines 75-126): identity on labels
without the xn-- marker, otherwise decode the remainder and materialise
the result with String.fromCharCode.  The JS try/catch at lines 120-125
never fires: the decode closure is total (it early-returns on exhausted
input rather than throwing). -/
def punycodeToUnicode (s : String) : String :=
  match xnRest s.data with
  | some rest => unitsToString (fromCharCodeUnits (decode (toUnits rest)))
  | none => s

/-- String.prototype.startsWith, as list-prefix test. -/
def strStartsWith (s p : String) : Bool :=
  p.data.isPrefixOf s.data

/-! ## Hostname decoding (src/scanner.js lines 128-140) -/

/-- String.prototype.split('.') on char lists: every dot separates, empty
segments are kept (so "" gives [""], "a." gives ["a", ""]). -/
def splitDotsL : List Char → List (List Char)
  | [] => [[]]
  | c :: rest =>
    match splitDotsL rest with
    | [] => [[]]
    | w :: ws => if c = '.' then [] :: w :: ws else (c :: w) :: ws

/-- Array.prototype.join('.') on char lists. -/
def intercalateDots : List (List Char) → List Char
  | [] => []
  | [w] => w
  | w :: ws => w ++ '.' :: intercalateDots ws

/-- Hostname split on dots. -/
def splitDots (s : String) : List String :=
  (splitDotsL s.data).map String.mk

/-- Labels re-joined with dots. -/
def joinDots (ls : List String) : String :=
  String.mk (intercalateDots (ls.map String.data))

/-- getHostnameUnicode (src/scanner.js lines 128-140), hostname-level
logic: only when the hostname itself starts with "xn--" are the labels
split, per-label decoded (again only the xn-- ones) and re-joined;
otherwise the hostname is returned unchanged.  The URL-object resolution
wrapped around it in the source is the caller's concern. -/
def getHostnameUnicode (host : String) : String :=
  if (xnRest host.data).isSome then
    joinDots ((splitDots host).map (fun p =>
      if (xnRest p.data).isSome then punycodeToUnicode p else p))
  else host

/-- decodeHostname exactly as the specification words it (spec section
4.2, composite contract): split on '.', apply the label decoder to every
segment, rejoin with '.'.  Comparison definition for claim C4. -/
def specDecodeHostname (host : String) : String :=
  joinDots ((splitDots host).map punycodeToUnicode)

/-! ## Domain verdict engine (src/unnamed/part_001 lines 386-428) -/

/-- Verdict produced for a hostname. -/
structure DomainVerdict where
  suspicious : Bool
  canonicalForm : String
deriving DecidableEq, Repr

/-- Character test of the suspicious-domain regex /[^a-zA-Z0-9.\-]/ at
line 400 of src/unnamed/part_001. -/
def isHostChar (c : Char) : Bool :=
  let n := c.toNat
  (97 ≤ n && n ≤ 122) || (65 ≤ n && n ≤ 90) || (48 ≤ n && n ≤ 57) || n == 46 || n == 45

/-- Regex test: some character outside [a-zA-Z0-9.-]. -/
def hasNonHostChar (s : String) : Bool :=
  s.data.any (fun c => !isHostChar c)

/-- Domain verdict engine, the hostname-level logic of scanLinks
(src/unnamed/part_001 lines 386-428): skip empty/localhost/private
hostnames outright (lines 391-394), otherwise decode the domain
(punycode.toUnicode at line 397 — per-label ACE decoding, modelled with
the repository's own label decoder) and flag it when the decoded form
contains a character outside [a-zA-Z0-9.-]. -/
def evaluateDomain (domain : String) : DomainVerdict :=
  if domain = "" ∨ domain = "localhost" ∨ strStartsWith domain "127." = true
      ∨ strStartsWith domain "192.168." = true ∨ strStartsWith domain "10." = true then
    ⟨false, domain⟩
  else
    let decoded := specDecodeHostname domain
    ⟨hasNonHostChar decoded, decoded⟩

/-! ## Script classifier (src/scanner.js lines 3-19) -/

/-- The writing systems of the scripts table. -/
inductive ScriptTag where
  | Latin
  | Greek
  | Cyrillic
  | Armenian
  | Hebrew
  | Arabic
deriving DecidableEq, Fintype, Repr

/-- Code-point range of each script's regex (src/scanner.js lines 3-10):
Latin [A-zÀ-ÿ], Greek [Ͱ-Ͽ],
Cyrillic [Ѐ-ӿ], Armenian [԰-֏],
Hebrew [֐-׿], Arabic [؀-ۿ]. -/
def scriptTest (t : ScriptTag) (c : Char) : Bool :=
  let n := c.toNat
  match t with
  | .Latin => (0x41 ≤ n && n ≤ 0x7A) || (0xC0 ≤ n && n ≤ 0xFF)
  | .Greek => 0x370 ≤ n && n ≤ 0x3FF
  | .Cyrillic => 0x400 ≤ n && n ≤ 0x4FF
  | .Armenian => 0x530 ≤ n && n ≤ 0x58F
  | .Hebrew => 0x590 ≤ n && n ≤ 0x5FF
  | .Arabic => 0x600 ≤ n && n ≤ 0x6FF

/-- detectScripts (src/scanner.js lines 12-19): the set of scripts whose
regex matches some character of the string; the empty string is returned
early (the !str guard) with the empty set. -/
def detectScripts (s : String) : Finset ScriptTag :=
  if s.data = [] then ∅
  else Finset.univ.filter (fun t => s.data.any (scriptTest t))

/-! ## Text verdict engine (src/unnamed/part_001 lines 208-292) -/

/-- String.prototype.toLowerCase restricted to the ranges exercised by the
keyword matching: ASCII A-Z, Latin-1 À-Þ (except ×), Greek Α-Ω (except the
unassigned 0x3A2), Cyrillic А-Я and Ѐ-Џ; every other character is left
unchanged.  On these ranges the JS full case mapping coincides with this
simple mapping. -/
def jsToLower (c : Char) : Char :=
  let n := c.toNat
  if 65 ≤ n ∧ n ≤ 90 then Char.ofNat (n + 32)
  else if 0xC0 ≤ n ∧ n ≤ 0xDE ∧ n ≠ 0xD7 then Char.ofNat (n + 32)
  else if 0x391 ≤ n ∧ n ≤ 0x3A9 ∧ n ≠ 0x3A2 then Char.ofNat (n + 32)
  else if 0x410 ≤ n ∧ n ≤ 0x42F then Char.ofNat (n + 32)
  else if 0x400 ≤ n ∧ n ≤ 0x40F then Char.ofNat (n + 80)
  else c

/-- toLowerCase over a char list. -/
def lowerL (l : List Char) : List Char :=
  l.map jsToLower

/-- String.prototype.includes: pat occurs contiguously in hay. -/
def containsStr (hay pat : List Char) : Bool :=
  hay.tails.any (fun t => pat.isPrefixOf t)

/-- SUSPICIOUS_KEYWORDS (src/unnamed/part_001 lines 28-34), verbatim
including the duplicated 'verify'. -/
def SUSPICIOUS_KEYWORDS : List String :=
  ["confidential", "urgent", "verify", "account", "security", "alert",
   "statement", "invoice", "payment", "suspended", "locked", "expire",
   "document", "ticket", "notification", "action required", "confirm",
   "update", "billing", "password", "login", "signin", "verify",
   "unusual", "activity", "review", "important", "immediate"]

/-- BRAND_NAMES (src/unnamed/part_001 lines 37-42). -/
def BRAND_NAMES : List String :=
  ["paypal", "apple", "google", "microsoft", "amazon", "facebook",
   "docusign", "adobe", "dropbox", "wetransfer", "hellosign",
   "instagram", "twitter", "linkedin", "netflix", "spotify",
   "chase", "wellsfargo", "bankofamerica", "citibank", "usbank"]

/-- Keyword/brand membership test on an already-lowercased char list:
SUSPICIOUS_KEYWORDS.some(k => lw.includes(k)) || BRAND_NAMES.some(b => lw.includes(b)). -/
def matchesKeywordLower (lw : List Char) : Bool :=
  SUSPICIOUS_KEYWORDS.any (fun k => containsStr lw k.data)
  || BRAND_NAMES.any (fun b => containsStr lw b.data)

/-- containsSuspiciousKeywords (src/unnamed/part_001 lines 213-217):
lowercase the whole text, then the membership test. -/
def containsSuspiciousKeywords (t : List Char) : Bool :=
  matchesKeywordLower (lowerL t)

/-- JS \s (and trim) character class: ASCII whitespace, NBSP, Ogham space,
the U+2000 block, line/paragraph separators, NNBSP, MMSP, ideographic
space, BOM. -/
def isWsChar (c : Char) : Bool :=
  let n := c.toNat
  n == 32 || n == 9 || n == 10 || n == 11 || n == 12 || n == 13
  || n == 160 || n == 0x1680 || (0x2000 ≤ n && n ≤ 0x200A)
  || n == 0x2028 || n == 0x2029 || n == 0x202F || n == 0x205F
  || n == 0x3000 || n == 0xFEFF

/-- Punctuation admitted by the regex class at line 236 of
src/unnamed/part_001: . - , ; : ! ? ' " ( ) [ ] and the two curly
brackets (codes 123 and 125). -/
def allowedPunct (n : Nat) : Bool :=
  n == 46 || n == 45 || n == 44 || n == 59 || n == 58 || n == 33 || n == 63
  || n == 39 || n == 34 || n == 40 || n == 41 || n == 91 || n == 93
  || n == 123 || n == 125

/-- Full character class of /[^a-zA-Z0-9.\-\s,;:!?'"()[\]\x7b\x7d]/ at
line 236 of src/unnamed/part_001: the test below is true exactly for
characters the regex does NOT flag. -/
def allowedChar (c : Char) : Bool :=
  let n := c.toNat
  (97 ≤ n && n ≤ 122) || (65 ≤ n && n ≤ 90) || (48 ≤ n && n ≤ 57)
  || allowedPunct n || isWsChar c

/-- Regex test at line 236: the word contains some disallowed character. -/
def hasDisallowedChar (w : List Char) : Bool :=
  w.any (fun c => !allowedChar c)

/-- Complement of the whitespace class. -/
def nonWs (c : Char) : Bool :=
  !isWsChar c

/-- Fuel-indexed splitter: skip whitespace, emit the maximal run of
non-whitespace characters, recurse on the rest.  Every step strictly
shortens the list, so fuel equal to the input length never runs out. -/
def wordsOfF : Nat → List Char → List (List Char)
  | 0, _ => []
  | _ + 1, [] => []
  | fuel + 1, c :: rest =>
    if isWsChar c then wordsOfF fuel rest
    else ((c :: rest).takeWhile nonWs) :: wordsOfF fuel ((c :: rest).dropWhile nonWs)

/-- text.split(/\s+/) on trimmed text: maximal runs of non-whitespace
characters, in order. -/
def wordsOf (l : List Char) : List (List Char) :=
  wordsOfF l.length l

/-- String.prototype.trim. -/
def trimL (l : List Char) : List Char :=
  ((l.dropWhile isWsChar).reverse.dropWhile isWsChar).reverse

/-- findSuspiciousWords (src/unnamed/part_001 lines 224-242): keep the
whitespace-separated tokens whose lowercase form contains a keyword or
brand and which themselves contain a character outside the allowed
class. -/
def findSuspiciousWords (t : List Char) : List (List Char) :=
  (wordsOf t).filter (fun w => matchesKeywordLower (lowerL w) && hasDisallowedChar w)

/-- Location context carried through the text engine (spec section 4.4). -/
inductive LocationTag where
  | EmailSubject
  | SenderName
  | EmailBody
deriving DecidableEq, Repr

/-- Verdict of the text engine. -/
structure TextVerdict where
  suspicious : Bool
  matchedTerms : List String
  location : LocationTag
deriving DecidableEq, Repr

/-- evaluateText, the pure content of checkTextForHomoglyphs
(src/unnamed/part_001 lines 249-292): trim; empty text and text without
any keyword/brand return a clean verdict; otherwise the tokens collected
by findSuspiciousWords decide the verdict. -/
def evaluateText (text : String) (loc : LocationTag) : TextVerdict :=
  if trimL text.data = [] then ⟨false, [], loc⟩
  else if containsSuspiciousKeywords (trimL text.data) = false then ⟨false, [], loc⟩
  else if findSuspiciousWords (trimL text.data) = [] then ⟨false, [], loc⟩
  else ⟨true, (findSuspiciousWords (trimL text.data)).map String.mk, loc⟩

/-! ## Alert aggregator (src/unnamed/part_001 lines 24-25, 283-284, 414-421) -/

/-- The !alertedItems.has(key) test guarding every toast. -/
def shouldAlert (alerted : List String) (key : String) : Bool :=
  !(alerted.contains key)

/-- alertedItems.add(key), performed before showing a toast. -/
def recordAlerted (alerted : List String) (key : String) : List String :=
  key :: alerted

/-! ## Helper lemmas -/

/-- The xn-- dispatch agrees with a list-prefix test on ['x','n','-','-']. -/
theorem xnRest_isSome_eq (l : List Char) :
    (xnRest l).isSome = List.isPrefixOf ['x', 'n', '-', '-'] l := by
  match l with
  | [] => simp [xnRest, List.isPrefixOf]
  | [a] => simp [xnRest, List.isPrefixOf]
  | [a, b] => simp [xnRest, List.isPrefixOf]
  | [a, b, c] => simp [xnRest, List.isPrefixOf]
  | a :: b :: c :: d :: rest =>
    by_cases h : a = 'x' ∧ b = 'n' ∧ c = '-' ∧ d = '-'
    · obtain ⟨h1, h2, h3, h4⟩ := h
      subst h1; subst h2; subst h3; subst h4
      simp [xnRest, List.isPrefixOf]
    · rw [xnRest, if_neg h]
      cases hb : List.isPrefixOf ['x', 'n', '-', '-'] (a :: b :: c :: d :: rest) with
      | false => rfl
      | true =>
        exfalso
        simp only [List.isPrefixOf, Bool.and_eq_true, beq_iff_eq] at hb
        exact h ⟨hb.1.symm, hb.2.1.symm, hb.2.2.1.symm, hb.2.2.2.1.symm⟩

/-- Labels without the ACE marker are returned unchanged by the codec. -/
theorem punycodeToUnicode_id (s : String) (h : xnRest s.data = none) :
    punycodeToUnicode s = s := by
  simp [punycodeToUnicode, h]

/-- lastIndexOf-splitting of a unit list ending in hyphen followed by one
non-hyphen digit. -/
theorem lastSplit_append_suffix (xs : List Nat) :
    lastSplit (xs ++ [45, 57]) = some (xs, [57]) := by
  induction xs with
  | nil => rfl
  | cons a xs ih => simp [lastSplit, ih]

/-- containsStr decides contiguous-substring occurrence. -/
theorem containsStr_eq_true_iff (hay pat : List Char) :
    containsStr hay pat = true ↔ pat <:+: hay := by
  unfold containsStr
  rw [List.any_eq_true]
  constructor
  · rintro ⟨t, ht, hp⟩
    exact List.infix_iff_prefix_suffix.mpr
      ⟨t, List.isPrefixOf_iff_prefix.mp hp, (List.mem_tails t hay).mp ht⟩
  · intro h
    obtain ⟨t, hpre, hsuf⟩ := List.infix_iff_prefix_suffix.mp h
    exact ⟨t, (List.mem_tails t hay).mpr hsuf, List.isPrefixOf_iff_prefix.mpr hpre⟩

/-- A keyword match inside an infix survives in the enclosing text. -/
theorem matchesKeywordLower_mono {w t : List Char} (hinf : w <:+: t)
    (h : matchesKeywordLower (lowerL w) = true) :
    matchesKeywordLower (lowerL t) = true := by
  have hmap : lowerL w <:+: lowerL t := hinf.map jsToLower
  unfold matchesKeywordLower at h ⊢
  rw [Bool.or_eq_true] at h ⊢
  rcases h with h | h
  · left
    obtain ⟨k, hk, hck⟩ := List.any_eq_true.mp h
    exact List.any_eq_true.mpr
      ⟨k, hk, (containsStr_eq_true_iff _ _).mpr
        (((containsStr_eq_true_iff _ _).mp hck).trans hmap)⟩
  · right
    obtain ⟨k, hk, hck⟩ := List.any_eq_true.mp h
    exact List.any_eq_true.mpr
      ⟨k, hk, (containsStr_eq_true_iff _ _).mpr
        (((containsStr_eq_true_iff _ _).mp hck).trans hmap)⟩

/-- Every token produced by the splitter occurs contiguously in the
input, whatever the fuel. -/
theorem wordsOfF_occurs : ∀ (fuel : Nat) (l : List Char), ∀ w ∈ wordsOfF fuel l, w <:+: l := by
  intro fuel
  induction fuel with
  | zero =>
    intro l w hw
    simp [wordsOfF] at hw
  | succ n ih =>
    intro l w hw
    match l with
    | [] => simp [wordsOfF] at hw
    | c :: r =>
      by_cases hc : isWsChar c = true
      · rw [show wordsOfF (n + 1) (c :: r) = wordsOfF n r from by simp [wordsOfF, hc]] at hw
        exact List.infix_cons (ih r w hw)
      · have hc' : isWsChar c = false := by simpa using hc
        rw [show wordsOfF (n + 1) (c :: r) =
            ((c :: r).takeWhile nonWs) :: wordsOfF n ((c :: r).dropWhile nonWs) from by
          simp [wordsOfF, hc']] at hw
        rcases List.mem_cons.mp hw with hw | hw
        · subst hw
          exact (List.takeWhile_prefix _).isInfix
        · exact (ih _ w hw).trans (List.dropWhile_suffix _).isInfix

/-- Wrapper: tokens are infixes of the split text. -/
theorem wordsOf_occurs {l w : List Char} (h : w ∈ wordsOf l) : w <:+: l :=
  wordsOfF_occurs l.length l w h

/-! ## Claim theorems -/

/-- C3: decodeLabel "xn--pple-43d" produces the five-character string
"аpple" whose first character is Cyrillic а (U+0430) followed by the
Latin letters p, p, l, e — the canonical worked example of the punycode
state machine with state {n, i, bias} initialised to {128, 0, 72},
digit alphabet 0-9 as 26-35 and letters as 0-25, and the text before the
last hyphen copied verbatim. -/
theorem C3_worked_example :
    punycodeToUnicode "xn--pple-43d" = "аpple"
    ∧ ("аpple" : String).data = [Char.ofNat 0x430, 'p', 'p', 'l', 'e'] := by
  constructor
  · decide
  · decide

/-- C8: decodeLabel is the identity on every label that does not begin
with the ACE marker "xn--". -/
theorem C8_identity_on_plain_labels (s : String)
    (h : strStartsWith s "xn--" = false) :
    punycodeToUnicode s = s := by
  apply punycodeToUnicode_id
  have hp : List.isPrefixOf ['x', 'n', '-', '-'] s.data = false := by
    have hd : ("xn--" : String).data = ['x', 'n', '-', '-'] := by decide
    have := h
    unfold strStartsWith at this
    rw [hd] at this
    exact this
  have hs : (xnRest s.data).isSome = false := by
    rw [xnRest_isSome_eq, hp]
  cases hx : xnRest s.data with
  | none => rfl
  | some r => rw [hx] at hs; simp at hs

/-- C8 witness: a concrete plain label is returned unchanged. -/
theorem C8_identity_witness :
    strStartsWith "apple.com" "xn--" = false
    ∧ punycodeToUnicode "apple.com" = "apple.com" :=
  ⟨by decide, C8_identity_on_plain_labels "apple.com" (by decide)⟩

/-- C5: hostnames that are empty, "localhost", or begin with the private
prefixes "127.", "192.168." or "10." receive a non-suspicious verdict
immediately from the domain engine. -/
theorem C5_private_hosts_clean (domain : String)
    (h : domain = "" ∨ domain = "localhost" ∨ strStartsWith domain "127." = true
      ∨ strStartsWith domain "192.168." = true ∨ strStartsWith domain "10." = true) :
    (evaluateDomain domain).suspicious = false := by
  unfold evaluateDomain
  rw [if_pos h]

/-- C5 witness: the two examples of the claim. -/
theorem C5_private_hosts_witness :
    (evaluateDomain "localhost").suspicious = false
    ∧ (evaluateDomain "192.168.1.1").suspicious = false :=
  ⟨C5_private_hosts_clean "localhost" (by decide),
   C5_private_hosts_clean "192.168.1.1" (by decide)⟩

/-- C6: the script classifier is total and pure — "paypal" yields exactly
the Latin tag, "pаypal" with one Cyrillic а yields exactly Latin and
Cyrillic, and any string none of whose characters lies in a configured
range (the empty string included) yields the empty set. -/
theorem C6_scriptsOf :
    detectScripts "paypal" = {ScriptTag.Latin}
    ∧ detectScripts "pаypal" = {ScriptTag.Latin, ScriptTag.Cyrillic}
    ∧ ∀ s : String, (∀ c ∈ s.data, ∀ t : ScriptTag, scriptTest t c = false) →
        detectScripts s = ∅ := by
  refine ⟨by decide, by decide, ?_⟩
  intro s h
  by_cases hs : s.data = []
  · simp [detectScripts, hs]
  · rw [detectScripts, if_neg hs]
    apply Finset.filter_false_of_mem
    intro t _
    intro hc
    obtain ⟨c, hc1, hc2⟩ := List.any_eq_true.mp hc
    rw [h c hc1 t] at hc2
    exact absurd hc2 (by simp)

/-- C6 witness: a digit-only string has no configured script and the
classifier returns the empty set on it. -/
theorem C6_scriptsOf_witness :
    (∀ c ∈ ("123" : String).data, ∀ t : ScriptTag, scriptTest t c = false)
    ∧ detectScripts "123" = ∅ :=
  ⟨by decide, C6_scriptsOf.2.2 "123" (by decide)⟩

/-- C7: dedup aggregator invariants — the first query for a key answers
true, a recorded key answers false forever after, recording a key leaves
every other key unchanged, and the alerted set only grows. -/
theorem C7_dedup (s : List String) (k k' : String) :
    shouldAlert [] k = true
    ∧ shouldAlert (recordAlerted s k) k = false
    ∧ (k' ≠ k → shouldAlert (recordAlerted s k) k' = shouldAlert s k')
    ∧ (∀ x ∈ s, x ∈ recordAlerted s k) := by
  refine ⟨rfl, ?_, ?_, ?_⟩
  · simp [shouldAlert, recordAlerted]
  · intro hne
    simp [shouldAlert, recordAlerted, List.contains_cons, hne]
  · intro x hx
    exact List.mem_cons_of_mem k hx

/-- C7 witness: the dedup sequence of the claim on concrete keys. -/
theorem C7_dedup_witness :
    shouldAlert [] "example.com" = true
    ∧ shouldAlert (recordAlerted ["other.com"] "example.com") "example.com" = false
    ∧ ("other.com" ≠ "example.com"
        ∧ shouldAlert (recordAlerted ["other.com"] "example.com") "other.com"
            = shouldAlert ["other.com"] "other.com")
    ∧ "other.com" ∈ recordAlerted ["other.com"] "example.com" :=
  ⟨(C7_dedup ["other.com"] "example.com" "other.com").1,
   (C7_dedup ["other.com"] "example.com" "other.com").2.1,
   ⟨by decide, (C7_dedup ["other.com"] "example.com" "other.com").2.2.1 (by decide)⟩,
   (C7_dedup ["other.com"] "example.com" "other.com").2.2.2 "other.com" (by decide)⟩

/-- C10: the decoder materialises its output through String.fromCharCode,
which reduces every code unit modulo 2^16 — all output units lie in the
BMP, and the label "xn--2n7c", whose delta encodes the supplementary code
point U+10000 = 65536, decodes to the wrapped unit 0 (U+0000) instead. -/
theorem C10_utf16_wrap :
    (∀ (l : List Nat) (u : Nat), u ∈ fromCharCodeUnits (decode l) → u < 65536)
    ∧ decode (toUnits ['2', 'n', '7', 'c']) = [65536]
    ∧ punycodeToUnicode "xn--2n7c" = String.mk [Char.ofNat 0] := by
  refine ⟨?_, by decide, by decide⟩
  intro l u hu
  obtain ⟨x, _, hx⟩ := List.mem_map.mp hu
  omega

/-- C10 witness: the wrapped unit 0 of "xn--2n7c" is in the BMP. -/
theorem C10_utf16_wrap_witness :
    0 ∈ fromCharCodeUnits (decode (toUnits ['2', 'n', '7', 'c'])) ∧ 0 < 65536 :=
  ⟨by decide, C10_utf16_wrap.1 (toUnits ['2', 'n', '7', 'c']) 0 (by decide)⟩

/-- C2 counterexample: "xn--9" is malformed punycode (the single digit 9
has value 35, which never falls below the threshold, so the digit loop
exhausts the input).  The decoder does NOT fall back to the original
encoded label: it returns the partial output, here the empty string. -/
theorem C2_counterexample :
    punycodeToUnicode "xn--9" = "" ∧ punycodeToUnicode "xn--9" ≠ "xn--9" := by
  constructor
  · decide
  · decide

/-- C2 amended: on insufficient digits the decoder returns the basic text
copied from before the last hyphen — the partial output accumulated so
far — rather than the original encoded label.  Stated for the family
"xn--" ++ b ++ "-9" whose delta part is a single always-continuing
digit: the decode yields exactly b (for any BMP text b). -/
theorem C2_insufficient_digits_partial_output (b : List Char)
    (h : ∀ c ∈ b, c.toNat < 65536) :
    punycodeToUnicode (String.mk ('x' :: 'n' :: '-' :: '-' :: (b ++ ['-', '9'])))
      = String.mk b := by
  have hx : xnRest ('x' :: 'n' :: '-' :: '-' :: (b ++ ['-', '9'])) = some (b ++ ['-', '9']) := by
    simp [xnRest]
  have ht : toUnits (b ++ ['-', '9']) = toUnits b ++ [45, 57] := by
    simp [toUnits]
  have hil : innerLoop [57] 0 1 36 72 = none := by decide
  have hdec : decode (toUnits b ++ [45, 57]) = toUnits b := by
    unfold decode
    rw [lastSplit_append_suffix]
    simp [outerLoop, hil]
  have hfc : fromCharCodeUnits (toUnits b) = toUnits b := by
    unfold fromCharCodeUnits toUnits
    rw [List.map_map]
    apply List.map_congr_left
    intro c hc
    simp [Nat.mod_eq_of_lt (h c hc)]
  have hus : unitsToString (toUnits b) = String.mk b := by
    unfold unitsToString toUnits
    rw [List.map_map]
    congr 1
    have hpt : ∀ c ∈ b, (Char.ofNat ∘ Char.toNat) c = id c := fun c _ => Char.ofNat_toNat c
    rw [List.map_congr_left hpt, List.map_id]
  show punycodeToUnicode ⟨'x' :: 'n' :: '-' :: '-' :: (b ++ ['-', '9'])⟩ = String.mk b
  rw [punycodeToUnicode]
  simp only [hx, ht, hdec, hfc, hus]

/-- C2 witness: "xn--pple-9" (insufficient digits) decodes to the partial
output "pple". -/
theorem C2_partial_output_witness :
    (∀ c ∈ ['p', 'p', 'l', 'e'], c.toNat < 65536)
    ∧ punycodeToUnicode (String.mk ('x' :: 'n' :: '-' :: '-' :: (['p', 'p', 'l', 'e'] ++ ['-', '9'])))
        = String.mk ['p', 'p', 'l', 'e'] :=
  ⟨by decide, C2_insufficient_digits_partial_output ['p', 'p', 'l', 'e'] (by decide)⟩

/-- C9 counterexample: at delta = 2^31 (with numPoints = 1, firstTime =
false) the implementation computes delta >> 1 through ToInt32, so delta
wraps to -2^31 and the result is 36, while the specification's pure
floor arithmetic yields 198. -/
theorem C9_counterexample :
    adapt 2147483648 1 false = 36 ∧ specAdapt 2147483648 1 false = 198 := by
  constructor
  · decide
  · decide

/-- C9 amended: the implemented bias adaptation equals the
specification's adapt for every non-negative delta below 2^31 (where
ToInt32 is the identity), every numPoints ≥ 1 and both firstTime
flags; beyond 2^31 the JS shift wraps. -/
theorem C9_adapt_matches_spec (delta : Nat) (hd : delta < 2147483648)
    (numPoints : Nat) (hn : 1 ≤ numPoints) (firstTime : Bool) :
    adapt (delta : Int) numPoints firstTime = (specAdapt delta numPoints firstTime : Int) := by
  have hcoreI : ∀ n : Nat, adaptCoreI (n : Int) = (adaptCore n : Int) := by
    intro n
    unfold adaptCoreI adaptCore
    by_cases h : 455 < n
    · rw [if_pos (show (455 : Int) < (n : Int) by exact_mod_cast h), if_pos h, Int.toNat_ofNat]
      have hdiv : Int.fdiv ((36 * (adaptLoop n n 0).1 : Nat) : Int)
          (((adaptLoop n n 0).1 + 38 : Nat) : Int)
          = ((36 * (adaptLoop n n 0).1 / ((adaptLoop n n 0).1 + 38) : Nat) : Int) :=
        (Int.ofNat_fdiv _ _).symm
      push_cast at hdiv
      rw [hdiv]
      push_cast
      ring
    · rw [if_neg (show ¬ (455 : Int) < (n : Int) by exact_mod_cast h), if_neg h]
      have hdiv : Int.fdiv ((36 * n : Nat) : Int) ((n + 38 : Nat) : Int)
          = ((36 * n / (n + 38) : Nat) : Int) :=
        (Int.ofNat_fdiv _ _).symm
      push_cast at hdiv
      rw [hdiv]
      push_cast
      ring
  have h32 : toInt32 (delta : Int) = (delta : Int) := by
    unfold toInt32
    omega
  have h700 : Int.fdiv (delta : Int) 700 = ((delta / 700 : Nat) : Int) :=
    (Int.ofNat_fdiv delta 700).symm
  have h2 : Int.fdiv (delta : Int) 2 = ((delta / 2 : Nat) : Int) :=
    (Int.ofNat_fdiv delta 2).symm
  have hnp : ∀ d0 : Nat, Int.fdiv ((d0 : Nat) : Int) (numPoints : Int)
      = ((d0 / numPoints : Nat) : Int) :=
    fun d0 => (Int.ofNat_fdiv d0 numPoints).symm
  unfold adapt specAdapt
  rw [h32]
  cases firstTime with
  | true =>
    rw [if_pos (rfl : true = true), if_pos (rfl : true = true), h700, hnp,
      show ((delta / 700 : Nat) : Int) + ((delta / 700 / numPoints : Nat) : Int)
        = ((delta / 700 + delta / 700 / numPoints : Nat) : Int) from by push_cast; ring]
    exact hcoreI _
  | false =>
    rw [if_neg (show ¬ (false = true) by decide), if_neg (show ¬ (false = true) by decide),
      h2, hnp,
      show ((delta / 2 : Nat) : Int) + ((delta / 2 / numPoints : Nat) : Int)
        = ((delta / 2 + delta / 2 / numPoints : Nat) : Int) from by push_cast; ring]
    exact hcoreI _

/-- C9 witness: the value used while decoding "xn--pple-43d" — delta =
4720 with one code point decoded — agrees between both definitions. -/
theorem C9_adapt_witness :
    4720 < 2147483648 ∧ 1 ≤ 5
    ∧ adapt ((4720 : Nat) : Int) 5 true = (specAdapt 4720 5 true : Int) :=
  ⟨by decide, by decide, C9_adapt_matches_spec 4720 (by decide) 5 (by decide) true⟩

/-- C4 counterexample: decodeHostname is NOT split-map-join on every
hostname — "www.xn--pple-43d.com" does not begin with "xn--", so the code
returns it untouched while split-map-join decodes the middle label; and
even label count is not always preserved: the single label "xn--ep7c"
decodes to "." (its code point 65582 wraps to 46 modulo 2^16), which
splits into two labels. -/
theorem C4_counterexample :
    getHostnameUnicode "www.xn--pple-43d.com" = "www.xn--pple-43d.com"
    ∧ specDecodeHostname "www.xn--pple-43d.com" = "www.аpple.com"
    ∧ getHostnameUnicode "www.xn--pple-43d.com" ≠ specDecodeHostname "www.xn--pple-43d.com"
    ∧ getHostnameUnicode "xn--ep7c" = "."
    ∧ (splitDots (getHostnameUnicode "xn--ep7c")).length = 2
    ∧ (splitDots "xn--ep7c").length = 1 := by
  refine ⟨by decide, by decide, by decide, by decide, by decide, by decide⟩

/-- C4 amended: decodeHostname equals split-on-dots, per-label decode,
rejoin exactly when the hostname begins with "xn--"; any other hostname
is returned unchanged (which trivially preserves its labels).  When
decoding does occur, label count need not be preserved (see the
counterexample). -/
theorem C4_hostname_decode (host : String) :
    (strStartsWith host "xn--" = true → getHostnameUnicode host = specDecodeHostname host)
    ∧ (strStartsWith host "xn--" = false → getHostnameUnicode host = host) := by
  have hd : ("xn--" : String).data = ['x', 'n', '-', '-'] := by decide
  have heq : strStartsWith host "xn--" = (xnRest host.data).isSome := by
    unfold strStartsWith
    rw [hd, xnRest_isSome_eq]
  constructor
  · intro h
    rw [heq] at h
    unfold getHostnameUnicode specDecodeHostname
    rw [if_pos h]
    congr 1
    apply List.map_congr_left
    intro p _
    by_cases hp : (xnRest p.data).isSome = true
    · rw [if_pos hp]
    · rw [if_neg hp]
      have hnone : xnRest p.data = none := by
        cases hx : xnRest p.data with
        | none => rfl
        | some r => rw [hx] at hp; simp at hp
      exact (punycodeToUnicode_id p hnone).symm
  · intro h
    rw [heq] at h
    unfold getHostnameUnicode
    rw [if_neg (by simp [h])]

/-- C4 witness: on an "xn--"-initial hostname the code and the
split-map-join contract agree. -/
theorem C4_hostname_decode_witness :
    strStartsWith "xn--pple-43d.com" "xn--" = true
    ∧ getHostnameUnicode "xn--pple-43d.com" = specDecodeHostname "xn--pple-43d.com" :=
  ⟨by decide, (C4_hostname_decode "xn--pple-43d.com").1 (by decide)⟩

/-- C1 counterexample: the homoglyph text of the claim is NOT flagged by
the code — Cyrillic Р lowercases to Cyrillic р, so the token "РayPal"
lowercases to "рaypal", which does not contain the brand "paypal" (or
any other configured keyword) as a substring. -/
theorem C1_counterexample :
    (evaluateText "Please verify your РayPal account" LocationTag.EmailSubject).suspicious
      = false := by
  decide

/-- C1 amended: evaluateText returns a non-suspicious verdict on BOTH
"Please verify your РayPal account" (the homoglyph token's lowercase form
no longer contains any keyword/brand) and the all-ASCII variant; and a
token of any text is collected into matchedTerms exactly when its
lowercase form contains a configured keyword or brand as a substring AND
the token itself contains a character outside the allowed class
[a-zA-Z0-9.\-\s,;:!?'"()[\]] and curly brackets. -/
theorem C1_text_engine :
    (evaluateText "Please verify your РayPal account" LocationTag.EmailSubject).suspicious = false
    ∧ (evaluateText "Please verify your PayPal account" LocationTag.EmailSubject).suspicious = false
    ∧ ∀ (text : String) (loc : LocationTag) (w : List Char),
        String.mk w ∈ (evaluateText text loc).matchedTerms ↔
          (w ∈ wordsOf (trimL text.data) ∧ matchesKeywordLower (lowerL w) = true
            ∧ hasDisallowedChar w = true) := by
  refine ⟨by decide, by decide, ?_⟩
  intro text loc w
  unfold evaluateText
  by_cases h0 : trimL text.data = []
  · rw [if_pos h0, h0]
    simp [wordsOf, wordsOfF]
  · rw [if_neg h0]
    by_cases hk : containsSuspiciousKeywords (trimL text.data) = false
    · rw [if_pos hk]
      simp only [List.not_mem_nil, false_iff]
      rintro ⟨hw, hmk, _⟩
      have hT : containsSuspiciousKeywords (trimL text.data) = true :=
        matchesKeywordLower_mono (wordsOf_occurs hw) hmk
      rw [hk] at hT
      exact absurd hT (by simp)
    · rw [if_neg hk]
      by_cases hsw : findSuspiciousWords (trimL text.data) = []
      · rw [if_pos hsw]
        simp only [List.not_mem_nil, false_iff]
        rintro ⟨hw, hmk, hdc⟩
        have hmem : w ∈ findSuspiciousWords (trimL text.data) := by
          unfold findSuspiciousWords
          rw [List.mem_filter]
          exact ⟨hw, by rw [hmk, hdc]; rfl⟩
        rw [hsw] at hmem
        exact absurd hmem (by simp)
      · rw [if_neg hsw]
        constructor
        · intro hmem
          obtain ⟨x, hx, hxe⟩ := List.mem_map.mp hmem
          have hxw : x = w := congrArg String.data hxe
          subst hxw
          have hf := List.mem_filter.mp (by
            unfold findSuspiciousWords at hx
            exact hx)
          refine ⟨hf.1, ?_, ?_⟩
          · exact (Bool.and_eq_true _ _ |>.mp hf.2).1
          · exact (Bool.and_eq_true _ _ |>.mp hf.2).2
        · rintro ⟨hw, hmk, hdc⟩
          apply List.mem_map_of_mem
          unfold findSuspiciousWords
          rw [List.mem_filter]
          exact ⟨hw, by rw [hmk, hdc]; rfl⟩

end GlyphGuard
